import Mathlib

/-!
Verification of the PCLI package tool (`src/main.py`): the repository-index
parser (`PackageDatabase._parse_packages`), the cache persistence routines
(`PackageDatabase._save_to_cache` / `load_from_cache`), and the dependency
resolver (`PackageInstaller._resolve_dependencies`), together with the
pre-resolution guard of `PackageInstaller.install`.

Python dictionaries are modelled as lists of key/value writes, newest first,
looked up with `find?` (so a later write shadows an earlier one, matching
dict overwrite semantics).  The resolver's mutable `visited` set is threaded
explicitly through the recursion, and the recursion itself is driven by a
fuel argument; `resolve_dependencies` supplies fuel `(depNames db).length + 1`,
which is adequate because every nested call that proceeds past the visited
check adds a fresh name to `visited`, and all such names apart from the root
occur in `depNames db`.
-/

namespace PCLI

/-- Package record, from the `Package` dataclass in `src/main.py`
(name, version, architecture, filename, depends). -/
structure Package where
  name : String
  version : String
  architecture : String
  filename : String
  depends : List (String × String)
deriving DecidableEq

/-- The catalog `PackageDatabase.packages`: a dict from name to record,
modelled as a list of writes, newest first. -/
abbrev Catalog := List Package

/-- `PackageDatabase.get_package`: `self.packages.get(name)`. -/
def get_package (db : Catalog) (name : String) : Option Package :=
  db.find? (fun p => p.name == name)

/-- Lookup in a dict modelled as a list of writes, newest first
(`pkg_data[key]` / `pkg_data.get(key)`). -/
def dictGet (d : List (String × String)) (k : String) : Option String :=
  (d.find? (fun kv => kv.1 == k)).map Prod.snd

/-- Python `str.strip()`: drop whitespace from both ends.  Text is
modelled as `List Char` so that every operation reduces in the kernel. -/
def pyStrip (cs : List Char) : List Char :=
  ((cs.dropWhile Char.isWhitespace).reverse.dropWhile Char.isWhitespace).reverse

/-- Python `content.split('\n\n')`: cut at every leftmost,
non-overlapping occurrence of two consecutive newlines. -/
def splitNN : List Char → List (List Char)
  | [] => [[]]
  | '\n' :: '\n' :: rest => [] :: splitNN rest
  | c :: rest =>
    match splitNN rest with
    | [] => [[c]]
    | piece :: pieces => (c :: piece) :: pieces

/-- One iteration of the per-line loop of `_parse_packages`
(lines 164-169 of `src/main.py`): an empty line or a line without a colon
is skipped; otherwise `line.split(':', 1)` yields the text before the
first colon and the text after it, and the stripped pair is written to
the dict. -/
def stanzaLineStep (d : List (String × String)) (line : List Char) :
    List (String × String) :=
  if line = [] then d
  else if line.contains ':' then
    let key := line.takeWhile (fun c => !(c == ':'))
    let value := line.drop (key.length + 1)
    (String.mk (pyStrip key), String.mk (pyStrip value)) :: d
  else d

/-- The key/value dict accumulated for one stanza (`pkg_data`),
from `entry.split('\n')`. -/
def stanzaData (entry : List Char) : List (String × String) :=
  (List.splitOn '\n' entry).foldl stanzaLineStep []

/-- A character the dependency-name group `[^\s(]+` of the regex at
line 180 of `src/main.py` accepts: neither whitespace nor an opening
parenthesis. -/
def depNameChar (c : Char) : Bool :=
  !(c.isWhitespace || c == '(')

/-- The optional constraint group `(?:\s*\(([^)]+)\))?` of the regex at
line 180, applied to the characters that follow the dependency name:
after skipping whitespace there must be a '(' followed by at least one
character other than ')' and then a ')'; the constraint is the content
up to that first ')'.  When the group does not match, the constraint is
the empty string (`match.group(2) or ''`). -/
def constraintAfter (cs : List Char) : String :=
  match cs.dropWhile Char.isWhitespace with
  | [] => ""
  | c :: tail =>
    if c = '(' then
      let content := tail.takeWhile (fun d => decide (d ≠ ')'))
      if 0 < content.length ∧ content.length < tail.length then
        String.mk content
      else ""
    else ""

/-- `re.match(r'^([^\s(]+)(?:\s*\(([^)]+)\))?', dep)` on one stripped
dependency slot: `none` when the name group cannot match (empty slot or a
slot starting with whitespace or '('), otherwise the pair of the maximal
name and the optional constraint. -/
def matchDep (cs : List Char) : Option (String × String) :=
  let name := cs.takeWhile depNameChar
  if name = [] then none
  else some (String.mk name, constraintAfter (cs.drop name.length))

/-- The `Depends` loop of `_parse_packages` (lines 176-184): split the
value on commas, strip each slot, and keep the (name, constraint) pair of
every slot the regex matches. -/
def parse_depends (value : String) : List (String × String) :=
  (List.splitOn ',' value.data).filterMap (fun dep => matchDep (pyStrip dep))

/-- Build the `Package` for one stanza (lines 171-192): `none` when the
dict has no `Package` key; otherwise version and filename default to the
empty string, architecture to `"amd64"`, and the depends list to `[]`
when the `Depends` key is absent. -/
def build_package (d : List (String × String)) : Option Package :=
  match dictGet d "Package" with
  | none => none
  | some n =>
    some { name := n
           version := (dictGet d "Version").getD ""
           architecture := (dictGet d "Architecture").getD "amd64"
           filename := (dictGet d "Filename").getD ""
           depends :=
             match dictGet d "Depends" with
             | none => []
             | some v => parse_depends v }

/-- One iteration of the per-stanza loop of `_parse_packages`
(lines 157-194): a blank entry is skipped, a stanza without a `Package`
key contributes nothing, and otherwise the record is written to the
catalog (`packages[pkg.name] = pkg`). -/
def parseEntryStep (db : Catalog) (entry : List Char) : Catalog :=
  if pyStrip entry = [] then db
  else
    match build_package (stanzaData entry) with
    | none => db
    | some pkg => pkg :: db

/-- `PackageDatabase._parse_packages`: split the content on blank lines
into stanzas and fold each stanza into the catalog. -/
def parse_packages (content : String) : Catalog :=
  (splitNN content.data).foldl parseEntryStep []

/-- The module-level `FORBIDDEN_PACKAGES` set (lines 49-52 of
`src/main.py`).  The resolver theorems below quantify over an arbitrary
forbidden list, of which this constant is one instance. -/
def FORBIDDEN_PACKAGES : List String :=
  ["libc6", "libc-bin", "libgcc-s1", "dpkg", "apt", "bash",
   "coreutils", "systemd", "init", "base-files", "ubuntu-minimal"]

/-- The inner merge loop of `_resolve_dependencies` (lines 427-429):
`for sub_dep in sub_deps: if sub_dep not in to_install: to_install.append(sub_dep)`. -/
def mergeNew (acc : List String) (subs : List String) : List String :=
  subs.foldl (fun a s => if s ∈ a then a else a ++ [s]) acc

/-- The per-slot loop of `_resolve_dependencies` (lines 413-432),
parameterised by the recursive call (`recurse`) so the fuel-indexed
recursion below can instantiate it.  The slot is skipped when its name is
forbidden, installed, or installed under the transitional `t64` variant;
otherwise the recursive result is merged ahead of the name and the name
appended if not already present.  The mutable `visited` set is threaded
from one slot to the next, as the shared Python set is. -/
def resolveDepsStep (installed forbidden : List String)
    (recurse : String → List String → List String × List String) :
    List (String × String) → List String → List String →
    List String × List String
  | [], visited, acc => (acc, visited)
  | (depName, _) :: rest, visited, acc =>
    if depName ∈ forbidden then
      resolveDepsStep installed forbidden recurse rest visited acc
    else if depName ∈ installed then
      resolveDepsStep installed forbidden recurse rest visited acc
    else if depName ++ "t64" ∈ installed then
      resolveDepsStep installed forbidden recurse rest visited acc
    else
      let r := recurse depName visited
      let acc1 := mergeNew acc r.1
      let acc2 := if depName ∈ acc1 then acc1 else acc1 ++ [depName]
      resolveDepsStep installed forbidden recurse rest r.2 acc2

/-- Fuel-indexed body of `PackageInstaller._resolve_dependencies`
(lines 398-434): a visited name or a name with no catalog record yields
no output (the name is added to `visited` before the record lookup, as at
line 406); otherwise the record's dependency slots are folded with
`resolveDepsStep`.  Returns the output list together with the final
visited set. -/
def resolveFuel (db : Catalog) (installed forbidden : List String) :
    Nat → String → List String → List String × List String
  | 0 => fun _ visited => ([], visited)
  | fuel + 1 => fun name visited =>
    if name ∈ visited then ([], visited)
    else
      match get_package db name with
      | none => ([], name :: visited)
      | some pkg =>
        resolveDepsStep installed forbidden
          (resolveFuel db installed forbidden fuel)
          pkg.depends (name :: visited) []

/-- Every dependency name occurring in some record of the catalog. -/
def depNames (db : Catalog) : List String :=
  (db.map (fun p => p.depends.map Prod.fst)).flatten

/-- `PackageInstaller._resolve_dependencies(name)` with its default
`visited = set()`: the Python recursion depth is bounded by the number of
distinct enterable names, so fuel `(depNames db).length + 1` never runs
out (each nested call that proceeds adds a fresh name to `visited`, and
every such name except the root occurs in `depNames db`). -/
def resolve_dependencies (db : Catalog) (installed forbidden : List String)
    (name : String) : List String :=
  (resolveFuel db installed forbidden ((depNames db).length + 1) name []).1

/-- Outcome of the guard at the top of `PackageInstaller.install`
(lines 350-359): forbidden names are refused, a root with no catalog
record is reported not found, and only otherwise does the command go on
to resolution with the root's record. -/
inductive InstallPreflight where
  | forbiddenRefused
  | notFound
  | proceed (pkg : Package)
deriving DecidableEq

/-- The pre-resolution guard of `PackageInstaller.install`
(lines 352-359): `name in FORBIDDEN_PACKAGES` is checked first and
returns `False`; then `get_package(name)` is checked and a missing record
returns `False` with a not-found message; otherwise the command proceeds
to dependency resolution. -/
def install_preflight (db : Catalog) (forbidden : List String)
    (name : String) : InstallPreflight :=
  if name ∈ forbidden then .forbiddenRefused
  else
    match get_package db name with
    | none => .notFound
    | some pkg => .proceed pkg

/-- State of the on-disk cache file `PACKAGES_CACHE`: `none` when the
file does not exist, `some none` when it exists but does not hold a
complete pickled catalog (e.g. it was truncated by an interrupted write),
and `some (some c)` when it holds the complete serialisation of `c`. -/
structure CacheState where
  file : Option (Option Catalog)
deriving DecidableEq

/-- The effectful steps of `PackageDatabase._save_to_cache`
(lines 198-206), in program order: create the cache directory, open the
cache file with mode `'wb'` (which truncates it in place), and write the
pickled catalog. -/
inductive SaveOp where
  | mkdirCacheDir
  | openTruncate
  | writeAll (c : Catalog)
deriving DecidableEq

/-- `_save_to_cache(c)` as its sequence of filesystem steps: `mkdir`,
`open(PACKAGES_CACHE, 'wb')`, `pickle.dump(c, f)`.  There is no
temporary file and no rename. -/
def save_to_cache_ops (c : Catalog) : List SaveOp :=
  [.mkdirCacheDir, .openTruncate, .writeAll c]

/-- Effect of one save step on the cache file. -/
def applySaveOp (s : CacheState) : SaveOp → CacheState
  | .mkdirCacheDir => s
  | .openTruncate => ⟨some none⟩
  | .writeAll c => ⟨some (some c)⟩

/-- Run a list of save steps; a crash during save corresponds to running
only a prefix `(save_to_cache_ops c).take n` of the steps. -/
def runSaveOps (s : CacheState) (ops : List SaveOp) : CacheState :=
  ops.foldl applySaveOp s

/-- `PackageDatabase.load_from_cache` (lines 208-223) at the level of the
cache-file state: a missing file returns `False` (no catalog), a file
that does not unpickle to a catalog raises inside the `try`, is caught,
and returns `False`; a complete serialisation yields its catalog. -/
def load_from_cache (s : CacheState) : Option Catalog :=
  match s.file with
  | some (some c) => some c
  | _ => none

/-- The atomicity contract the specification asserts for `save`: started
from any previously-valid cache of `old`, every crash point of
`save(c)` (every prefix of its steps) leaves the cache readable as
either `old` or `c`. -/
def saveIsAtomic : Prop :=
  ∀ (old c : Catalog) (n : Nat),
    load_from_cache
        (runSaveOps ⟨some (some old)⟩ ((save_to_cache_ops c).take n)) =
      some old ∨
    load_from_cache
        (runSaveOps ⟨some (some old)⟩ ((save_to_cache_ops c).take n)) =
      some c

/-! ### Example catalogs used by the concrete claims -/

/-- A record with the given name and dependency names, with the
unconstrained constraint `""` the parser produces for plain names. -/
def pkgOf (n : String) (ds : List String) : Package :=
  { name := n, version := "1.0", architecture := "amd64",
    filename := n ++ ".deb", depends := ds.map (fun d => (d, "")) }

/-- Two-package cycle: A depends on B, B depends on A. -/
def cycleDb : Catalog := [pkgOf "A" ["B"], pkgOf "B" ["A"]]

/-- Chain: A depends on B, B depends on C, C has no dependencies. -/
def chainDb : Catalog := [pkgOf "A" ["B"], pkgOf "B" ["C"], pkgOf "C" []]

/-- A depends on M, and M has no record in the catalog. -/
def missDb : Catalog := [pkgOf "A" ["M"]]

/-- A depends on X, X depends on Y; X is forbidden in the C5 instance. -/
def forbDb : Catalog := [pkgOf "A" ["X"], pkgOf "X" ["Y"], pkgOf "Y" []]

/-- A depends on Y, Y depends on Z; Y is installed (or installed as
`Yt64`) in the C6 instances. -/
def instDb : Catalog := [pkgOf "A" ["Y"], pkgOf "Y" ["Z"], pkgOf "Z" []]

/-- A depends on B, and B and C form a cycle below the root. -/
def cyc3Db : Catalog := [pkgOf "A" ["B"], pkgOf "B" ["C"], pkgOf "C" ["B"]]

/-- The ordering property of the specification, decidably: every
dependency of an emitted name that is itself emitted precedes that name
in the list. -/
def depFirstOrdered (db : Catalog) (l : List String) : Bool :=
  l.all fun n =>
    match get_package db n with
    | none => true
    | some p => p.depends.all fun d =>
        !(l.contains d.1) || decide (l.indexOf d.1 < l.indexOf n)

/-- The dependency-slot name as claim C9 words it (following the
specification's words, for comparison with `matchDep`): the first
whitespace-delimited token of the stripped slot. -/
def specFirstToken (slot : String) : String :=
  String.mk ((pyStrip slot.data).takeWhile (fun c => !c.isWhitespace))

/-! ### Invariant lemmas about the resolver -/

theorem mem_mergeNew {subs acc : List String} {x : String}
    (hx : x ∈ mergeNew acc subs) : x ∈ acc ∨ x ∈ subs := by
  induction subs generalizing acc with
  | nil => exact Or.inl hx
  | cons s rest ih =>
    simp only [mergeNew, List.foldl_cons] at hx
    rcases ih hx with h | h
    · by_cases hs : s ∈ acc
      · rw [if_pos hs] at h
        exact Or.inl h
      · rw [if_neg hs] at h
        rcases List.mem_append.mp h with h' | h'
        · exact Or.inl h'
        · simp at h'
          exact Or.inr (by simp [h'])
    · exact Or.inr (List.mem_cons_of_mem s h)

theorem nodup_mergeNew {subs acc : List String} (h : acc.Nodup) :
    (mergeNew acc subs).Nodup := by
  induction subs generalizing acc with
  | nil => exact h
  | cons s rest ih =>
    simp only [mergeNew, List.foldl_cons]
    apply ih
    by_cases hs : s ∈ acc
    · simpa [hs] using h
    · rw [if_neg hs]
      simp [List.nodup_append, h, hs]

theorem resolveDepsStep_mem_imp (installed forbidden : List String)
    (recurse : String → List String → List String × List String)
    (P : String → Prop)
    (hgood : ∀ d, d ∉ forbidden → d ∉ installed → d ++ "t64" ∉ installed → P d)
    (hrec : ∀ n v x, x ∈ (recurse n v).1 → P x) :
    ∀ (deps : List (String × String)) (visited acc : List String),
      (∀ x ∈ acc, P x) →
      ∀ x ∈ (resolveDepsStep installed forbidden recurse deps visited acc).1,
        P x := by
  intro deps
  induction deps with
  | nil =>
    intro visited acc hacc x hx
    exact hacc x hx
  | cons d rest ih =>
    intro visited acc hacc x hx
    obtain ⟨depName, con⟩ := d
    by_cases hf : depName ∈ forbidden
    · rw [show resolveDepsStep installed forbidden recurse
            ((depName, con) :: rest) visited acc =
          resolveDepsStep installed forbidden recurse rest visited acc from by
        simp [resolveDepsStep, hf]] at hx
      exact ih _ _ hacc x hx
    · by_cases hi : depName ∈ installed
      · rw [show resolveDepsStep installed forbidden recurse
              ((depName, con) :: rest) visited acc =
            resolveDepsStep installed forbidden recurse rest visited acc from by
          simp [resolveDepsStep, hf, hi]] at hx
        exact ih _ _ hacc x hx
      · by_cases ht : depName ++ "t64" ∈ installed
        · rw [show resolveDepsStep installed forbidden recurse
                ((depName, con) :: rest) visited acc =
              resolveDepsStep installed forbidden recurse rest visited acc from by
            simp [resolveDepsStep, hf, hi, ht]] at hx
          exact ih _ _ hacc x hx
        · rw [show resolveDepsStep installed forbidden recurse
                ((depName, con) :: rest) visited acc =
              resolveDepsStep installed forbidden recurse rest
                (recurse depName visited).2
                (let acc1 := mergeNew acc (recurse depName visited).1
                 if depName ∈ acc1 then acc1 else acc1 ++ [depName]) from by
            simp [resolveDepsStep, hf, hi, ht]] at hx
          apply ih _ _ ?_ x hx
          intro y hy
          have hy1 : y ∈ mergeNew acc (recurse depName visited).1 ∨ y = depName := by
            by_cases hd : depName ∈ mergeNew acc (recurse depName visited).1
            · simp only [if_pos hd] at hy
              exact Or.inl hy
            · simp only [if_neg hd] at hy
              rcases List.mem_append.mp hy with h' | h'
              · exact Or.inl h'
              · simp at h'
                exact Or.inr h'
          rcases hy1 with hy1 | rfl
          · rcases mem_mergeNew hy1 with h' | h'
            · exact hacc y h'
            · exact hrec depName visited y h'
          · exact hgood y hf hi ht

theorem resolveDepsStep_nodup (installed forbidden : List String)
    (recurse : String → List String → List String × List String) :
    ∀ (deps : List (String × String)) (visited acc : List String),
      acc.Nodup →
      (resolveDepsStep installed forbidden recurse deps visited acc).1.Nodup := by
  intro deps
  induction deps with
  | nil =>
    intro visited acc hacc
    exact hacc
  | cons d rest ih =>
    intro visited acc hacc
    obtain ⟨depName, con⟩ := d
    by_cases hf : depName ∈ forbidden
    · simpa [resolveDepsStep, hf] using ih visited acc hacc
    · by_cases hi : depName ∈ installed
      · simpa [resolveDepsStep, hf, hi] using ih visited acc hacc
      · by_cases ht : depName ++ "t64" ∈ installed
        · simpa [resolveDepsStep, hf, hi, ht] using ih visited acc hacc
        · have h1 : (mergeNew acc (recurse depName visited).1).Nodup :=
            nodup_mergeNew hacc
          have h2 : (if depName ∈ mergeNew acc (recurse depName visited).1
              then mergeNew acc (recurse depName visited).1
              else mergeNew acc (recurse depName visited).1 ++ [depName]).Nodup := by
            by_cases hd : depName ∈ mergeNew acc (recurse depName visited).1
            · simpa [hd] using h1
            · rw [if_neg hd]
              simp [List.nodup_append, h1, hd]
          simpa [resolveDepsStep, hf, hi, ht] using ih _ _ h2

theorem resolveFuel_mem_imp (db : Catalog) (installed forbidden : List String)
    (P : String → Prop)
    (hgood : ∀ d, d ∉ forbidden → d ∉ installed → d ++ "t64" ∉ installed → P d) :
    ∀ (fuel : Nat) (name : String) (visited : List String) (x : String),
      x ∈ (resolveFuel db installed forbidden fuel name visited).1 → P x := by
  intro fuel
  induction fuel with
  | zero =>
    intro name visited x hx
    simp [resolveFuel] at hx
  | succ fuel ih =>
    intro name visited x hx
    simp only [resolveFuel] at hx
    by_cases hv : name ∈ visited
    · simp [hv] at hx
    · rw [if_neg hv] at hx
      cases hpkg : get_package db name with
      | none =>
        rw [hpkg] at hx
        simp at hx
      | some pkg =>
        rw [hpkg] at hx
        exact resolveDepsStep_mem_imp installed forbidden _ P hgood
          (fun n v y hy => ih n v y hy) pkg.depends _ [] (by simp) x hx

theorem resolveFuel_nodup (db : Catalog) (installed forbidden : List String)
    (fuel : Nat) (name : String) (visited : List String) :
    (resolveFuel db installed forbidden fuel name visited).1.Nodup := by
  cases fuel with
  | zero => simp [resolveFuel]
  | succ fuel =>
    simp only [resolveFuel]
    by_cases hv : name ∈ visited
    · simp [hv]
    · rw [if_neg hv]
      cases hpkg : get_package db name with
      | none => simp
      | some pkg =>
        exact resolveDepsStep_nodup installed forbidden _ pkg.depends _ []
          List.nodup_nil

theorem resolveFuel_unknown (db : Catalog) (installed forbidden : List String)
    (fuel : Nat) (name : String) (visited : List String)
    (h : get_package db name = none) :
    (resolveFuel db installed forbidden fuel name visited).1 = [] := by
  cases fuel with
  | zero => rfl
  | succ fuel =>
    simp only [resolveFuel]
    by_cases hv : name ∈ visited
    · simp [hv]
    · rw [if_neg hv, h]

theorem resolveFuel_succ (db : Catalog) (installed forbidden : List String)
    (fuel : Nat) (name : String) (visited : List String) :
    resolveFuel db installed forbidden (fuel + 1) name visited =
      if name ∈ visited then ([], visited)
      else
        match get_package db name with
        | none => ([], name :: visited)
        | some pkg =>
          resolveDepsStep installed forbidden
            (resolveFuel db installed forbidden fuel)
            pkg.depends (name :: visited) [] := rfl

theorem takeWhile_append_stop {p : Char → Bool} (a : List Char) (c : Char)
    (rest : List Char) (ha : ∀ ch ∈ a, p ch = true) (hc : p c = false) :
    (a ++ c :: rest).takeWhile p = a := by
  induction a with
  | nil => simp [List.takeWhile_cons, hc]
  | cons x xs ih =>
    have hx : p x = true := ha x (by simp)
    simp [List.takeWhile_cons, hx,
      ih (fun ch hch => ha ch (by simp [hch]))]

theorem mem_depNames {db : Catalog} {pkg : Package} {m c : String}
    (hpkg : pkg ∈ db) (hm : (m, c) ∈ pkg.depends) : m ∈ depNames db := by
  simp only [depNames, List.mem_flatten]
  refine ⟨pkg.depends.map Prod.fst, List.mem_map_of_mem _ hpkg, ?_⟩
  exact List.mem_map.mpr ⟨(m, c), hm, rfl⟩

/-! ### Claims about the resolver -/

/-- C1, counterexample: for the two-package cycle A→B→A with nothing
installed and nothing forbidden, `resolve(A)` does emit the root `A`,
and its result is not `[B]`. -/
theorem resolve_two_cycle_not_B_only :
    "A" ∈ resolve_dependencies cycleDb [] [] "A" ∧
      resolve_dependencies cycleDb [] [] "A" ≠ ["B"] := by decide

/-- C1, amended: for the two-package cycle A→B→A (neither installed nor
forbidden), `resolve(A)` terminates and returns `[A, B]`: the cycle is
cut by the visited set, but the revisited root is still appended by its
dependant, so the root is emitted when a cycle reaches back to it. -/
theorem resolve_two_cycle_emits_root :
    resolve_dependencies cycleDb [] [] "A" = ["A", "B"] := by decide

/-- C2, counterexample: in a catalog where A depends on M and M has no
record, `resolve(A)` does contain M — a dependency name absent from the
catalog is not omitted from the output. -/
theorem resolve_unknown_dep_not_omitted :
    get_package missDb "M" = none ∧
      "M" ∈ resolve_dependencies missDb [] [] "A" := by decide

/-- C2, amended: a dependency name with no record in the catalog (and
neither installed, installed as its `t64` variant, nor forbidden) is
still included in the output of resolve; only its own sub-dependencies
are not expanded.  For a root whose record has exactly that one
dependency slot, the plan is `[m]`. -/
theorem resolve_unknown_dep_included
    (db : Catalog) (installed forbidden : List String)
    (root m c : String) (pkg : Package)
    (hroot : get_package db root = some pkg)
    (hdeps : pkg.depends = [(m, c)])
    (hf : m ∉ forbidden) (hi : m ∉ installed)
    (ht : m ++ "t64" ∉ installed)
    (hmiss : get_package db m = none) :
    resolve_dependencies db installed forbidden root = [m] := by
  have hne : m ≠ root := by
    intro h
    rw [h, hroot] at hmiss
    cases hmiss
  have hpkgmem : pkg ∈ db := List.mem_of_find?_eq_some hroot
  have hm : m ∈ depNames db :=
    mem_depNames hpkgmem
      (show (m, c) ∈ pkg.depends by rw [hdeps]; exact List.mem_singleton.mpr rfl)
  obtain ⟨k, hk⟩ : ∃ k, (depNames db).length = k + 1 := by
    have hlen : 0 < (depNames db).length :=
      List.length_pos.mpr (List.ne_nil_of_mem hm)
    exact ⟨(depNames db).length - 1, by omega⟩
  show (resolveFuel db installed forbidden ((depNames db).length + 1) root []).1 = [m]
  rw [hk]
  rw [resolveFuel_succ, if_neg (List.not_mem_nil root)]
  simp only [hroot, hdeps]
  simp only [resolveDepsStep]
  rw [if_neg hf, if_neg hi, if_neg ht]
  rw [resolveFuel_succ, if_neg (by simp [hne] : ¬ m ∈ [root])]
  simp only [hmiss]
  simp [resolveDepsStep, mergeNew]

theorem resolve_unknown_dep_included_witness :
    resolve_dependencies missDb [] [] "A" = ["M"] :=
  resolve_unknown_dep_included missDb [] [] "A" "M" "" (pkgOf "A" ["M"])
    (by decide) (by decide) (by decide) (by decide) (by decide) (by decide)

/-- C4, counterexample: for an unknown root, the resolver helper
`_resolve_dependencies` returns `[]`, the very same value it returns for
a known root with zero outstanding dependencies — at the resolver level
the two outcomes are not distinguishable. -/
theorem resolver_unknown_root_empty_counterexample :
    get_package ([] : Catalog) "A" = none ∧
      resolve_dependencies ([] : Catalog) [] [] "A" = [] ∧
      (get_package [pkgOf "A" []] "A").isSome = true ∧
      resolve_dependencies [pkgOf "A" []] [] [] "A" = [] := by decide

/-- C4, amended: the resolve helper itself returns the empty list for a
root with no catalog record (no exception; indistinguishable from an
empty plan), and the distinct not-found outcome is produced by the
`install` command's catalog check before resolution, which is a
different outcome from proceeding to any plan. -/
theorem install_notfound_distinct_from_empty_plan
    (db : Catalog) (installed forbidden : List String) (name : String)
    (hmiss : get_package db name = none) :
    resolve_dependencies db installed forbidden name = [] ∧
      (name ∉ forbidden → install_preflight db forbidden name = .notFound) ∧
      ∀ pkg : Package,
        InstallPreflight.notFound ≠ InstallPreflight.proceed pkg := by
  refine ⟨resolveFuel_unknown db installed forbidden _ name [] hmiss,
    fun hnf => ?_, fun pkg => by simp⟩
  simp [install_preflight, hnf, hmiss]

theorem install_notfound_distinct_witness :
    resolve_dependencies ([] : Catalog) ["i"] ["f"] "Z" = [] ∧
      ("Z" ∉ ["f"] → install_preflight ([] : Catalog) ["f"] "Z" = .notFound) ∧
      ∀ pkg : Package,
        InstallPreflight.notFound ≠ InstallPreflight.proceed pkg :=
  install_notfound_distinct_from_empty_plan [] ["i"] ["f"] "Z" (by decide)

/-- C5: for every catalog, installed set, forbidden set and root, the
output of resolve contains no forbidden name; and a forbidden dependency
slot is never descended into — with A→X, X→Y, X forbidden and X present
in the catalog, `resolve(A)` is `[]` (neither X nor Y in the plan). -/
theorem resolve_never_emits_forbidden :
    (∀ (db : Catalog) (installed forbidden : List String) (root x : String),
        x ∈ resolve_dependencies db installed forbidden root →
          x ∉ forbidden) ∧
      resolve_dependencies forbDb [] ["X"] "A" = [] := by
  refine ⟨?_, by decide⟩
  intro db installed forbidden root x hx
  exact resolveFuel_mem_imp db installed forbidden (fun y => y ∉ forbidden)
    (fun d hf _ _ => hf) _ root [] x hx

theorem resolve_never_emits_forbidden_witness : ("C" : String) ∉ ["Q"] :=
  resolve_never_emits_forbidden.1 chainDb [] ["Q"] "A" "C" (by decide)

/-- C6: a dependency name present in the installed set, or whose `t64`
transitional variant is present in the installed set, never appears in
the resolve output; and such a slot is not expanded — with A→Y, Y→Z and
Y (resp. Yt64) installed, `resolve(A)` is `[]` (Z not expanded via that
slot). -/
theorem resolve_skips_installed_and_t64 :
    (∀ (db : Catalog) (installed forbidden : List String) (root x : String),
        x ∈ resolve_dependencies db installed forbidden root →
          x ∉ installed ∧ x ++ "t64" ∉ installed) ∧
      resolve_dependencies instDb ["Y"] [] "A" = [] ∧
      resolve_dependencies instDb ["Yt64"] [] "A" = [] := by
  refine ⟨?_, by decide, by decide⟩
  intro db installed forbidden root x hx
  exact resolveFuel_mem_imp db installed forbidden
    (fun y => y ∉ installed ∧ y ++ "t64" ∉ installed)
    (fun d _ hi ht => ⟨hi, ht⟩) _ root [] x hx

theorem resolve_skips_installed_witness :
    ("C" : String) ∉ ["W"] ∧ ("C" ++ "t64" : String) ∉ ["W"] :=
  resolve_skips_installed_and_t64.1 chainDb ["W"] [] "A" "C" (by decide)

/-- C7, counterexample: with A→B and the cycle B→C→B, `resolve(A)`
returns `[B, C]`: C is a dependency of the emitted name B yet follows
it, so the output is not dependency-first ordered. -/
theorem resolve_order_violated_on_cycle :
    resolve_dependencies cyc3Db [] [] "A" = ["B", "C"] ∧
      depFirstOrdered cyc3Db (resolve_dependencies cyc3Db [] [] "A") = false := by
  decide

/-- C7, amended: every name appears at most once in the resolve output
(for all catalogs and sets), and for the acyclic chain A→B→C the output
is exactly `[C, B]`, which is dependency-first ordered; the ordering
clause does not extend to cyclic graphs (see the counterexample). -/
theorem resolve_nodup_and_chain_order :
    (∀ (db : Catalog) (installed forbidden : List String) (root : String),
        (resolve_dependencies db installed forbidden root).Nodup) ∧
      resolve_dependencies chainDb [] [] "A" = ["C", "B"] ∧
      depFirstOrdered chainDb (resolve_dependencies chainDb [] [] "A") = true := by
  refine ⟨?_, by decide, by decide⟩
  intro db installed forbidden root
  exact resolveFuel_nodup db installed forbidden _ root []

/-! ### Claims about the cache -/

/-- C3, counterexample: saving is not atomic.  With a valid cache of a
one-record catalog on disk, running only the first two steps of
`_save_to_cache` (mkdir, then `open(PACKAGES_CACHE, 'wb')`) truncates
the cache file in place, so the state is readable neither as the old
catalog nor as the new one. -/
theorem save_not_atomic : ¬ saveIsAtomic := by
  intro h
  have h2 := h [pkgOf "A" []] [] 2
  revert h2
  decide

/-- C3, amended: `_save_to_cache` writes the serialized catalog directly
to the cache path, with no temporary file and no rename; a crash between
opening the file for writing and completing the write leaves a truncated
cache that a later load reports as a miss, destroying the
previously-valid cache, while a completed save is read back as the new
catalog. -/
theorem save_in_place_crash_behavior (old c : Catalog) :
    runSaveOps ⟨some (some old)⟩ ((save_to_cache_ops c).take 2) = ⟨some none⟩ ∧
      load_from_cache
          (runSaveOps ⟨some (some old)⟩ ((save_to_cache_ops c).take 2)) = none ∧
      load_from_cache (runSaveOps ⟨some (some old)⟩ (save_to_cache_ops c)) =
        some c :=
  ⟨rfl, rfl, rfl⟩

/-! ### Claims about the parser -/

/-- C8: the catalog parser is total by construction
(`parse_packages : String → Catalog`), and: a line without a colon is
skipped without affecting the surrounding stanza lines, a stanza whose
dict has no `Package` key contributes no record to the catalog, and a
stanza with `Package` but no `Depends` key yields a record with an empty
dependency list. -/
theorem parser_robustness :
    (∀ (d : List (String × String)) (pre post : List (List Char))
        (bad : List Char),
        bad.contains ':' = false →
        (pre ++ bad :: post).foldl stanzaLineStep d =
          (pre ++ post).foldl stanzaLineStep d) ∧
      (∀ (db : Catalog) (entry : List Char),
        dictGet (stanzaData entry) "Package" = none →
        parseEntryStep db entry = db) ∧
      (∀ (entry : List Char) (n : String),
        dictGet (stanzaData entry) "Package" = some n →
        dictGet (stanzaData entry) "Depends" = none →
        build_package (stanzaData entry) =
          some { name := n,
                 version := (dictGet (stanzaData entry) "Version").getD "",
                 architecture :=
                   (dictGet (stanzaData entry) "Architecture").getD "amd64",
                 filename := (dictGet (stanzaData entry) "Filename").getD "",
                 depends := [] }) := by
  refine ⟨?_, ?_, ?_⟩
  · intro d pre post bad hbad
    rw [List.foldl_append, List.foldl_append, List.foldl_cons]
    have hstep : stanzaLineStep (pre.foldl stanzaLineStep d) bad =
        pre.foldl stanzaLineStep d := by
      by_cases hb : bad = []
      · simp [stanzaLineStep, hb]
      · have hmem : ':' ∉ bad := by simpa using hbad
        simp [stanzaLineStep, hb, hmem]
    rw [hstep]
  · intro db entry hpkg
    simp [parseEntryStep, build_package, hpkg]
  · intro entry n hpkg hdeps
    simp [build_package, hpkg, hdeps]

theorem parser_robustness_witness :
    (([] ++ "badline".data :: ["Version: 1".data]).foldl stanzaLineStep [] =
        ([] ++ ["Version: 1".data]).foldl stanzaLineStep []) ∧
      parseEntryStep [] "Version: 1".data = [] ∧
      build_package (stanzaData "Package: p".data) =
        some { name := "p",
               version := (dictGet (stanzaData "Package: p".data) "Version").getD "",
               architecture :=
                 (dictGet (stanzaData "Package: p".data) "Architecture").getD "amd64",
               filename :=
                 (dictGet (stanzaData "Package: p".data) "Filename").getD "",
               depends := [] } :=
  ⟨parser_robustness.1 [] [] ["Version: 1".data] "badline".data (by decide),
   parser_robustness.2.1 [] "Version: 1".data (by decide),
   parser_robustness.2.2 "Package: p".data "p" (by decide) (by decide)⟩

/-- C9, counterexample: on the slot `foo(>= 1.0)` the parser records the
pair `("foo", ">= 1.0")`, although the first whitespace-delimited token
of the slot is `foo(>=`; and on the value `a,,` only one pair is
recorded for its three comma-separated slots, so a slot does not always
record exactly one pair. -/
theorem parse_depends_spec_mismatch :
    parse_depends "foo(>= 1.0)" = [("foo", ">= 1.0")] ∧
      specFirstToken "foo(>= 1.0)" = "foo(>=" ∧
      ("foo" : String) ≠ "foo(>=" ∧
      (parse_depends "a,,").length = 1 ∧
      (List.splitOn ',' ("a,,".data)).length = 3 := by decide

/-- C9, amended: the parser splits the `Depends` value on every comma
and each slot yields at most one (name, constraint) pair; the name of
every recorded pair is a nonempty string of characters that are neither
whitespace nor `(` (the maximal such prefix of the stripped slot, per
the regex `^([^\s(]+)`); and a slot of the form `a | b` (alternatives
separated by `|` after a plain first name) yields exactly the pair
`(a, "")`, its alternatives discarded. -/
theorem parse_depends_slot_behavior :
    (∀ value : String,
        (parse_depends value).length ≤ (List.splitOn ',' value.data).length) ∧
      (∀ (value : String) (p : String × String), p ∈ parse_depends value →
        p.1 ≠ "" ∧ ∀ ch ∈ p.1.data, depNameChar ch = true) ∧
      (∀ a b : List Char, a ≠ [] → (∀ ch ∈ a, depNameChar ch = true) →
        matchDep (a ++ ' ' :: '|' :: ' ' :: b) = some (String.mk a, "")) := by
  refine ⟨?_, ?_, ?_⟩
  · intro value
    exact List.length_filterMap_le _ _
  · intro value p hp
    rcases List.mem_filterMap.mp hp with ⟨dep, hdep, hmatch⟩
    simp only [matchDep] at hmatch
    by_cases hname : (pyStrip dep).takeWhile depNameChar = []
    · rw [if_pos hname] at hmatch
      cases hmatch
    · rw [if_neg hname] at hmatch
      injection hmatch with hpair
      subst hpair
      refine ⟨?_, ?_⟩
      · intro hemp
        apply hname
        have hd := congrArg String.data hemp
        simpa using hd
      · intro ch hch
        exact List.mem_takeWhile_imp hch
  · intro a b ha hall
    have htw : (a ++ ' ' :: '|' :: ' ' :: b).takeWhile depNameChar = a :=
      takeWhile_append_stop a ' ' _ hall (by decide)
    simp only [matchDep]
    rw [htw, if_neg ha, List.drop_left]
    simp [constraintAfter, List.dropWhile]

theorem parse_depends_slot_behavior_witness :
    ((parse_depends "a,b").length ≤ (List.splitOn ',' ("a,b".data)).length) ∧
      (("libfoo", ">= 2.1").1 ≠ "" ∧
        ∀ ch ∈ ("libfoo", ">= 2.1").1.data, depNameChar ch = true) ∧
      matchDep ("a".data ++ ' ' :: '|' :: ' ' :: "b".data) =
        some (String.mk "a".data, "") :=
  ⟨parse_depends_slot_behavior.1 "a,b",
   parse_depends_slot_behavior.2.1 "libfoo (>= 2.1), bar | baz"
     ("libfoo", ">= 2.1") (by decide),
   parse_depends_slot_behavior.2.2 "a".data "b".data (by decide) (by decide)⟩

/-- C10: a stanza with a `Package` key but no `Version` or `Filename`
key parses to a record whose version and filename are the empty string,
and only the architecture field receives the non-empty default
`"amd64"` when its key is absent. -/
theorem stanza_missing_field_defaults
    (entry : List Char) (pkg : Package)
    (hbuild : build_package (stanzaData entry) = some pkg) :
    (dictGet (stanzaData entry) "Version" = none → pkg.version = "") ∧
      (dictGet (stanzaData entry) "Filename" = none → pkg.filename = "") ∧
      (dictGet (stanzaData entry) "Architecture" = none →
        pkg.architecture = "amd64") ∧
      ("amd64" : String) ≠ "" := by
  unfold build_package at hbuild
  cases hpkg : dictGet (stanzaData entry) "Package" with
  | none =>
    rw [hpkg] at hbuild
    cases hbuild
  | some n =>
    rw [hpkg] at hbuild
    simp only [Option.some.injEq] at hbuild
    subst hbuild
    refine ⟨fun hv => ?_, fun hf => ?_, fun ha => ?_, by decide⟩
    · simp [hv]
    · simp [hf]
    · simp [ha]

theorem stanza_missing_field_defaults_witness :
    (dictGet (stanzaData "Package: p".data) "Version" = none →
        (⟨"p", "", "amd64", "", []⟩ : Package).version = "") ∧
      (dictGet (stanzaData "Package: p".data) "Filename" = none →
        (⟨"p", "", "amd64", "", []⟩ : Package).filename = "") ∧
      (dictGet (stanzaData "Package: p".data) "Architecture" = none →
        (⟨"p", "", "amd64", "", []⟩ : Package).architecture = "amd64") ∧
      ("amd64" : String) ≠ "" :=
  stanza_missing_field_defaults "Package: p".data
    (⟨"p", "", "amd64", "", []⟩ : Package) (by decide)

end PCLI
